import Mathlib

/-!
Verification of the CellProfiler plugin modules in this repository:

* `src/cellprofiler/modules/measureimageviaremoteservice.py`
  (`MeasureImageViaRemoteService`)
* `src/cellprofiler/modules/measureneuralfeatures.py` (`MeasureNeuralFeatures`)
* `src/cellprofiler/modules/distancetransform.py` (`DistanceTransform`)

The modules are shallowly embedded: Python strings become `List Char`,
Python lists become Lean lists, side effects (network, filesystem, model
loading, measurement recording) become explicit event traces, and the
fallible parts (tuple unpacking, `float()` conversion, `range()` of a
non-integer) become `Except`.  The source is Python 2 (the neural module
uses `xrange`), so the primary embedding of `/` on integers is floor
division; a separate variant models the same code under Python-3 true
division for the latent-bug analysis.
-/

namespace Py

/-- A Python string, embedded as its list of characters so that every
operation reduces in the kernel. -/
abbrev PyStr := List Char

/-- Characters stripped by Python `str.strip()` (ASCII whitespace). -/
def isPySpace (c : Char) : Bool :=
  c = ' ' || c = '\t' || c = '\n' || c = '\r' || c = '\x0b' || c = '\x0c'

/-- Python `str.strip()`: drop leading and trailing whitespace. -/
def pyStrip (s : PyStr) : PyStr :=
  ((s.dropWhile isPySpace).reverse.dropWhile isPySpace).reverse

/-- Python `str.split(sep)` for a one-character separator `sep`:
splits on every occurrence, keeping empty fields (`''.split(':') == ['']`,
`':'.split(':') == ['', '']`). -/
def pySplitChar (sep : Char) : PyStr → List PyStr
  | [] => [[]]
  | c :: rest =>
    let r := pySplitChar sep rest
    if c = sep then [] :: r
    else
      match r with
      | [] => [[c]]
      | g :: gs => (c :: g) :: gs

/-- Python `str.startswith(p)`. -/
def pyStartsWith (s p : PyStr) : Bool :=
  match s, p with
  | _, [] => true
  | [], _ :: _ => false
  | c :: s, d :: p => c = d && pyStartsWith s p

/-- Python slice `s[1:-1]`: drop the first and the last character
(empty result when the string has at most two characters). -/
def pySlice1Neg1 (s : PyStr) : PyStr :=
  (s.drop 1).dropLast

/-- One or more ASCII digits. -/
def allDigits (s : PyStr) : Bool :=
  match s with
  | [] => false
  | _ => s.all fun c => c.isDigit

/-- Mantissa of a Python float literal: `digits`, `digits.digits*`, or
`.digits`. -/
def isFloatMantissa (s : PyStr) : Bool :=
  match pySplitChar '.' s with
  | [d] => allDigits d
  | [d, f] =>
    (allDigits d && (f = [] || allDigits f)) || (d = [] && allDigits f)
  | _ => false

/-- Drop an optional leading sign. -/
def dropSign (s : PyStr) : PyStr :=
  match s with
  | '+' :: rest => rest
  | '-' :: rest => rest
  | _ => s

/-- Whether Python-2 `float(s)` succeeds on an already-stripped string
`s`.  Modelled from the Python float grammar on its common forms:
optional sign, decimal mantissa, optional exponent (`inf`/`nan` are not
modelled; no claim depends on them). -/
def isFloatLit (s : PyStr) : Bool :=
  match pySplitChar 'e' s with
  | [m] =>
    match pySplitChar 'E' m with
    | [m'] => isFloatMantissa (dropSign m')
    | [m', x] => isFloatMantissa (dropSign m') && allDigits (dropSign x)
    | _ => false
  | [m, x] => isFloatMantissa (dropSign m) && allDigits (dropSign x)
  | _ => false

end Py

/-- Decidable equality of `Except` results, for evaluating the parser on
concrete inputs. -/
instance {ε α : Type _} [DecidableEq ε] [DecidableEq α] : DecidableEq (Except ε α) :=
  fun x y =>
    match x, y with
    | .ok a, .ok b =>
      if h : a = b then .isTrue (by rw [h]) else .isFalse (fun hh => h (Except.ok.inj hh))
    | .error e, .error f =>
      if h : e = f then .isTrue (by rw [h]) else .isFalse (fun hh => h (Except.error.inj hh))
    | .ok _, .error _ => .isFalse (fun hh => Except.noConfusion hh)
    | .error _, .ok _ => .isFalse (fun hh => Except.noConfusion hh)

namespace RemoteService

open Py

/-- A value appended to the `lines` list in `get_service_response`:
Python mixes floats (from `float(line_val)`) and strings (from
`line_val[1:-1]`) in one list.  A float is carried as the literal it was
parsed from. -/
inductive PyVal
  | float (lit : PyStr)
  | str (s : PyStr)
deriving DecidableEq, Repr

/-- Decimal digits of `n`, as in Python `'%d' % n`. -/
def natDigits (n : Nat) : PyStr :=
  Nat.toDigits 10 n

/-- Observable side effects of `MeasureImageViaRemoteService.run` and
`get_service_response`, in program order. -/
inductive Event
  | openChannel (loc : PyStr) (port : Int)
  | createStub
  | writeFile (name : PyStr)
  | readFile (name : PyStr)
  | classify
  | addImageMeasurement (feature : PyStr) (value : PyVal)
deriving DecidableEq, Repr

/-- skimage `gray2rgb`: replicate each gray pixel into three channels. -/
def gray2rgb (d : List (List ℚ)) : List (List (List ℚ)) :=
  d.map fun row => row.map fun v => [v, v, v]

/-- The loop body of `get_service_response` over the lines of
`result.split('\n')`, with the `classes`, `scores` and `lines`
accumulators passed explicitly.  A line whose `split(':')` does not have
exactly two fields raises `ValueError` at the tuple unpacking; a `score`
line whose value is not a float literal raises `ValueError` inside
`float()`. -/
def parseLoop : List PyStr → List PyStr → List PyStr → List PyVal →
    Except PyStr (List PyStr × List PyStr × List PyVal)
  | [], classes, scores, lines => .ok (classes, scores, lines)
  | line :: rest, classes, scores, lines =>
    if pyStrip line = [] then
      parseLoop rest classes scores lines
    else
      match pySplitChar ':' line with
      | [lineTy, lineVal0] =>
        let lineVal := pyStrip lineVal0
        if pyStartsWith lineTy ("score".toList) then
          if isFloatLit lineVal then
            parseLoop rest classes (scores ++ [lineVal]) (lines ++ [.float lineVal])
          else
            .error ("ValueError: could not convert string to float".toList)
        else if pyStartsWith lineTy ("class".toList) then
          parseLoop rest (classes ++ [pySlice1Neg1 lineVal]) scores
            (lines ++ [.str (pySlice1Neg1 lineVal)])
        else
          parseLoop rest classes scores lines
      | parts =>
        .error ((if parts.length < 2 then
            "ValueError: need more than 1 value to unpack"
          else
            "ValueError: too many values to unpack").toList)

/-- The `disp_lines` construction under the source's actual (Python 2)
semantics, where `len(lines) / 2` is integer floor division:
`disp_lines[i] = [lines[len(lines)/2 + i], lines[i]]`. -/
def mkDispLines (lines : List PyVal) : List (List PyVal) :=
  (List.range (lines.length / 2)).map fun i =>
    [lines.getD (lines.length / 2 + i) (.str []), lines.getD i (.str [])]

/-- Model of `get_service_response(pixels)`: writes the image to the hardcoded
file `image.jpg`, reads it back, sends it to the remote stub, and parses
the textual response (supplied here as the oracle `response`) into
`(disp_lines, scores, classes)`.  First component: the effect trace;
second: the parse outcome. -/
def get_service_response (pixels : List (List (List ℚ))) (response : PyStr) :
    List Event × Except PyStr (List (List PyVal) × List PyStr × List PyStr) :=
  let _ := pixels
  let fileEvents : List Event :=
    [.writeFile ("image.jpg".toList), .readFile ("image.jpg".toList), .classify]
  match parseLoop (pySplitChar '\n' response) [] [] [] with
  | .error e => (fileEvents, .error e)
  | .ok (classes, scores, lines) =>
    (fileEvents, .ok (mkDispLines lines, scores, classes))

/-- The class/score measurement events recorded by the loop
`for i, row in enumerate(zip(classes, scores))` in `run`:
`class%d` and `score%d` with `%d = i + 1`. -/
def measList (classes scores : List PyStr) (n : Nat) : List Event :=
  (List.range n).flatMap fun i =>
    [.addImageMeasurement ("class".toList ++ natDigits (i + 1)) (.str (classes.getD i [])),
     .addImageMeasurement ("score".toList ++ natDigits (i + 1)) (.float (scores.getD i []))]

/-- Model of `MeasureImageViaRemoteService.run`: opens an insecure channel at the
configured location and port, creates a stub, calls
`get_service_response` on the `gray2rgb` of the input pixels, and
records one `class%d` and one `score%d` image measurement per entry of
`zip(classes, scores)`.  An error from the parse aborts the run. -/
def run (loc : PyStr) (port : Int) (pixel_data : List (List ℚ)) (response : PyStr) :
    List Event × Except PyStr Unit :=
  let pre : List Event := [.openChannel loc port, .createStub]
  let (ev, res) := get_service_response (gray2rgb pixel_data) response
  match res with
  | .error e => (pre ++ ev, .error e)
  | .ok (_, scores, classes) =>
    (pre ++ ev ++ measList classes scores (min classes.length scores.length), .ok ())

/-- Whether an event is a measurement recording. -/
def isMeasEvent : Event → Bool
  | .addImageMeasurement _ _ => true
  | _ => false

/-- The measurement events of a trace. -/
def measEvents (tr : List Event) : List Event :=
  tr.filter isMeasEvent

/-- Whether an event opens a channel. -/
def isOpenChannel : Event → Bool
  | .openChannel _ _ => true
  | _ => false

/-- Whether an event creates a stub. -/
def isCreateStub : Event → Bool
  | .createStub => true
  | _ => false

/-- The concatenated effect trace of a sequence of `run` invocations;
each invocation is (location, port, pixel data, service response). -/
def runMany (invs : List (PyStr × Int × List (List ℚ) × PyStr)) : List Event :=
  invs.flatMap fun inv => (run inv.1 inv.2.1 inv.2.2.1 inv.2.2.2).1

/-- Whether an event writes a file. -/
def isWriteFile : Event → Bool
  | .writeFile _ => true
  | _ => false

/-- Whether an event reads a file. -/
def isReadFile : Event → Bool
  | .readFile _ => true
  | _ => false

/-- A Python-3 number: an int, or the float produced by true division. -/
inductive Py3Num
  | intVal (n : ℤ)
  | floatVal (q : ℚ)
deriving DecidableEq, Repr

/-- Python-3 `/` on integers: true division, always a float. -/
def py3Div (a b : ℤ) : Py3Num :=
  .floatVal ((a : ℚ) / (b : ℚ))

/-- Python-3 `range(x)`: raises `TypeError` unless `x` is an int. -/
def py3Range : Py3Num → Except PyStr (List ℕ)
  | .intVal n => .ok (List.range n.toNat)
  | .floatVal _ =>
    .error ("TypeError: float object cannot be interpreted as an integer".toList)

/-- The `disp_lines` construction under Python-3 semantics:
`range(len(lines) / 2)` is `range` of a float. -/
def mkDispLinesPy3 (lines : List PyVal) : Except PyStr (List (List PyVal)) :=
  match py3Range (py3Div lines.length 2) with
  | .error e => .error e
  | .ok idxs =>
    .ok (idxs.map fun i =>
      [lines.getD (lines.length / 2 + i) (.str []), lines.getD i (.str [])])

/-- The parse outcome of `get_service_response` under Python-3 division
semantics (the effect trace is unchanged from the Python-2 model). -/
def get_service_response_py3 (response : PyStr) :
    Except PyStr (List (List PyVal) × List PyStr × List PyStr) :=
  match parseLoop (pySplitChar '\n' response) [] [] [] with
  | .error e => .error e
  | .ok (classes, scores, lines) =>
    match mkDispLinesPy3 lines with
    | .error e => .error e
    | .ok disp => .ok (disp, scores, classes)

/-- The pairing property claimed by the specification for `disp_lines`:
one entry per class/score pair, and the i-th entry holds the i-th class
and the i-th score (in either order).  Written from the specification's
words, to be compared with what `mkDispLines` actually produces. -/
def pairsEachClassWithItsScore (disp : List (List PyVal))
    (scores classes : List PyStr) : Prop :=
  disp.length = min scores.length classes.length ∧
  ∀ i ∈ List.range disp.length,
    disp.getD i [] = [.float (scores.getD i []), .str (classes.getD i [])] ∨
    disp.getD i [] = [.str (classes.getD i []), .float (scores.getD i [])]

instance (disp : List (List PyVal)) (scores classes : List PyStr) :
    Decidable (pairsEachClassWithItsScore disp scores classes) := by
  unfold pairsEachClassWithItsScore
  infer_instance

end RemoteService

namespace NeuralFeatures

/-- Pixel data of one grayscale image. -/
abbrev Pixels := List (List ℚ)

/-- The per-module scratch dictionary `self.get_dictionary()['Neural']`.
The TensorFlow session, `features` tensor and `input_placeholder` are
summarized by `modelLoaded` (they are only ever written together in
`prepare_group` and read in `process_batch`). -/
structure NeuralDict where
  count : ℕ
  images : List Pixels
  image_set_numbers : List ℕ
  modelLoaded : Bool
deriving DecidableEq, Repr

/-- Observable effects of the neural module: loading the checkpointed
model, pushing a batch through the network, adding one measurement. -/
inductive Event
  | loadModel
  | runNetwork (batchLen : ℕ)
  | addMeasurement (imageSetNumber : ℕ) (featureIdx : ℕ) (value : ℚ)
deriving DecidableEq, Repr

/-- Model of `MeasureNeuralFeatures.prepare_group`: reset the scratch dictionary
and load the model (session, graph, `features:0`, `input:0`) exactly
once for the group. -/
def prepare_group : NeuralDict × List Event :=
  ({ count := 0, images := [], image_set_numbers := [], modelLoaded := true },
   [.loadModel])

/-- Model of `MeasureNeuralFeatures.process_batch`: push the accumulated images
through the network (`net` stands for the loaded TensorFlow graph:
batch of images in, one feature row per image out), record a
measurement per (image, feature) pair keyed by the accumulated
image-set numbers, then clear the accumulator.  `shape0` and `shape1`
are `extracted_features.shape`. -/
def process_batch (net : List Pixels → List (List ℚ)) (d : NeuralDict) :
    NeuralDict × List Event :=
  let feats := net d.images
  let shape0 := feats.length
  let shape1 := (feats.headD []).length
  let evs := (List.range shape0).flatMap fun i =>
    (List.range shape1).map fun j =>
      Event.addMeasurement (d.image_set_numbers.getD i 0) j ((feats.getD i []).getD j 0)
  ({ d with images := [], image_set_numbers := [] }, Event.runNetwork shape0 :: evs)

/-- Model of `MeasureNeuralFeatures.run`: append the incoming image and its
image-set number to the accumulator; flush through `process_batch` when
the accumulator has reached `batch_size`; finally bump `count`. -/
def run (batch_size : ℕ) (net : List Pixels → List (List ℚ))
    (pix : Pixels) (num : ℕ) (d : NeuralDict) : NeuralDict × List Event :=
  let count := d.count
  let d1 := { d with
    images := d.images ++ [pix],
    image_set_numbers := d.image_set_numbers ++ [num] }
  let r := if batch_size ≤ d1.images.length then process_batch net d1 else (d1, [])
  ({ r.1 with count := count + 1 }, r.2)

/-- Model of `MeasureNeuralFeatures.post_group`: flush the remaining partial
batch, if any. -/
def post_group (net : List Pixels → List (List ℚ)) (d : NeuralDict) :
    NeuralDict × List Event :=
  if 0 < d.images.length then process_batch net d else (d, [])

/-- The host's per-group invocation loop: one `run` per image set. -/
def runSteps (batch_size : ℕ) (net : List Pixels → List (List ℚ)) :
    List (Pixels × ℕ) → NeuralDict → NeuralDict × List Event
  | [], d => (d, [])
  | (pix, num) :: rest, d =>
    let r1 := run batch_size net pix num d
    let r2 := runSteps batch_size net rest r1.1
    (r2.1, r1.2 ++ r2.2)

/-- One whole processing group: `prepare_group`, then `run` on each
image set in order, then `post_group`. -/
def runGroup (batch_size : ℕ) (net : List Pixels → List (List ℚ))
    (inputs : List (Pixels × ℕ)) : NeuralDict × List Event :=
  let r0 := prepare_group
  let r1 := runSteps batch_size net inputs r0.1
  let r2 := post_group net r1.1
  (r2.1, r0.2 ++ r1.2 ++ r2.2)

/-- The (image-set number, feature index) key of every measurement in a
trace, in emission order. -/
def measKeys (tr : List Event) : List (ℕ × ℕ) :=
  tr.filterMap fun e =>
    match e with
    | .addMeasurement n j _ => some (n, j)
    | _ => none

/-- Whether an event is the model load. -/
def isLoadModel : Event → Bool
  | .loadModel => true
  | _ => false

/-- Whether an event is a batch flush (a network invocation); `run`
performs exactly one per `process_batch` call. -/
def isFlush : Event → Bool
  | .runNetwork _ => true
  | _ => false

/-- The measurement keys a group should produce: for each image-set
number, one key per feature index below `F`. -/
def keyBlocks (F : ℕ) (nums : List ℕ) : List (ℕ × ℕ) :=
  nums.flatMap fun n => (List.range F).map fun j => (n, j)

end NeuralFeatures

namespace DistanceTransform

/-- Pixel data of the input image: a (possibly ragged) matrix of
rationals, standing for the float image in `[0, 1]`. -/
abbrev Image2D := List (List ℚ)

/-- The pixel at row `i`, column `j` (0 outside the image). -/
def pixelAt (img : Image2D) (i j : ℕ) : ℚ :=
  (img.getD i []).getD j 0

/-- Modelled from skimage `img_as_uint` on a float image: scale by
65535 and round to the nearest integer (numpy `rint` rounds exact
halves to even; the difference is immaterial to any statement here). -/
def imgAsUintPixel (x : ℚ) : ℤ :=
  round (65535 * x)

/-- The coordinates of the image's pixels. -/
def coords (img : Image2D) : List (ℕ × ℕ) :=
  (List.range img.length).flatMap fun i =>
    (List.range (img.getD i []).length).map fun j => (i, j)

/-- The background: pixels whose 16-bit converted value is zero. -/
def zeroPixels (img : Image2D) : List (ℕ × ℕ) :=
  (coords img).filter fun p => imgAsUintPixel (pixelAt img p.1 p.2) = 0

/-- Squared Euclidean distance between two pixel coordinates. -/
def sqDist (p q : ℕ × ℕ) : ℕ :=
  ((p.1 : ℤ) - (q.1 : ℤ)).natAbs ^ 2 + ((p.2 : ℤ) - (q.2 : ℤ)).natAbs ^ 2

/-- Modelled from the spec: scipy `distance_transform_edt` computes the
distance from each pixel to the nearest zero-valued pixel; this is the
squared distance, whose square root is the emitted pixel value.  The
all-foreground case (no zero pixel anywhere) is left unspecified by the
spec; the model returns 0 there and the theorems assume a zero pixel
exists where that case would matter. -/
def edtSq (img : Image2D) (p : ℕ × ℕ) : ℕ :=
  match (zeroPixels img).map (sqDist p) with
  | [] => 0
  | d :: ds => ds.foldl min d

/-- The Euclidean distance-transform value at a pixel, as emitted by
`scipy.ndimage.distance_transform_edt`. -/
noncomputable def edt (img : Image2D) (p : ℕ × ℕ) : ℝ :=
  Real.sqrt (edtSq img p)

/-- The full output array (squared values, pixel-for-pixel with the
input). -/
def edtArray (img : Image2D) : List (List ℕ) :=
  (List.range img.length).map fun i =>
    (List.range (img.getD i []).length).map fun j => edtSq img (i, j)

/-- The image object passed to `images.add`: the distance-transform
data with the input image as `parent_image`. -/
structure CPOutImage where
  sq_pixels : List (List ℕ)
  parent_data : Image2D
deriving DecidableEq, Repr

/-- Model of `DistanceTransform.run`: look up the input image by its configured
name, compute the distance transform of its `img_as_uint` conversion,
and add the result to the image set under the configured output name
with the input image as parent.  `none` models the host error when the
input name is absent. -/
def run (x_name y_name : List Char) (imageSet : List (List Char × Image2D)) :
    Option (List Char × CPOutImage) :=
  match imageSet.lookup x_name with
  | none => none
  | some x_data => some (y_name, { sq_pixels := edtArray x_data, parent_data := x_data })

end DistanceTransform

namespace RemoteService

open Py

theorem parseLoop_append (a b : List PyStr) (cs ss : List PyStr) (ln : List PyVal) :
    parseLoop (a ++ b) cs ss ln =
      match parseLoop a cs ss ln with
      | .ok r => parseLoop b r.1 r.2.1 r.2.2
      | .error e => .error e := by
  induction a generalizing cs ss ln with
  | nil => simp [parseLoop]
  | cons line rest ih =>
    simp only [List.cons_append, parseLoop]
    split
    · exact ih ..
    · split
      · split
        · split
          · exact ih ..
          · rfl
        · split
          · exact ih ..
          · exact ih ..
      · rfl

theorem run_error (loc : PyStr) (port : Int) (pd : List (List ℚ)) (response : PyStr)
    (e : PyStr) (h : parseLoop (pySplitChar '\n' response) [] [] [] = .error e) :
    run loc port pd response =
      ([.openChannel loc port, .createStub, .writeFile ("image.jpg".toList),
        .readFile ("image.jpg".toList), .classify], .error e) := by
  simp only [run, get_service_response, h]
  rfl

theorem run_ok (loc : PyStr) (port : Int) (pd : List (List ℚ)) (response : PyStr)
    (classes scores : List PyStr) (lines : List PyVal)
    (h : parseLoop (pySplitChar '\n' response) [] [] [] = .ok (classes, scores, lines)) :
    run loc port pd response =
      ([.openChannel loc port, .createStub, .writeFile ("image.jpg".toList),
        .readFile ("image.jpg".toList), .classify]
        ++ measList classes scores (min classes.length scores.length), .ok ()) := by
  simp only [run, get_service_response, h]
  rfl

theorem get_service_response_ok_inv {p : List (List (List ℚ))} {r : PyStr}
    {disp : List (List PyVal)} {scores classes : List PyStr}
    (h : (get_service_response p r).2 = .ok (disp, scores, classes)) :
    ∃ lines, parseLoop (pySplitChar '\n' r) [] [] [] = .ok (classes, scores, lines) ∧
      disp = mkDispLines lines := by
  rcases hP : parseLoop (pySplitChar '\n' r) [] [] [] with e | ⟨cs, ss, ln⟩
  · rw [show (get_service_response p r).2 = .error e by simp only [get_service_response, hP]] at h
    exact Except.noConfusion h
  · rw [show (get_service_response p r).2 = .ok (mkDispLines ln, ss, cs) by
      simp only [get_service_response, hP]] at h
    have h' := Except.ok.inj h
    have hd : disp = mkDispLines ln := (congrArg Prod.fst h').symm
    have hs : scores = ss := (congrArg (fun x => x.2.1) h').symm
    have hc : classes = cs := (congrArg (fun x => x.2.2) h').symm
    subst hd hs hc
    exact ⟨ln, rfl, rfl⟩

theorem measList_succ (cs ss : List PyStr) (n : ℕ) :
    measList cs ss (n + 1) = measList cs ss n ++
      [.addImageMeasurement ("class".toList ++ natDigits (n + 1)) (.str (cs.getD n [])),
       .addImageMeasurement ("score".toList ++ natDigits (n + 1)) (.float (ss.getD n []))] := by
  simp [measList, List.range_succ]

theorem measList_length (cs ss : List PyStr) (n : ℕ) :
    (measList cs ss n).length = 2 * n := by
  induction n with
  | zero => rfl
  | succ n ih => rw [measList_succ]; simp [ih]; omega

theorem measList_getD_even (cs ss : List PyStr) (n i : ℕ) (hi : i < n) (d : Event) :
    (measList cs ss n).getD (2 * i) d =
      .addImageMeasurement ("class".toList ++ natDigits (i + 1)) (.str (cs.getD i [])) := by
  induction n with
  | zero => omega
  | succ n ih =>
    rw [measList_succ]
    rcases Nat.lt_or_ge i n with h | h
    · rw [List.getD_append _ _ _ _ (by rw [measList_length]; omega)]
      exact ih h
    · have hin : i = n := by omega
      subst hin
      rw [List.getD_append_right _ _ _ _ (by rw [measList_length])]
      rw [measList_length]
      simp [Nat.sub_self]

theorem measList_getD_odd (cs ss : List PyStr) (n i : ℕ) (hi : i < n) (d : Event) :
    (measList cs ss n).getD (2 * i + 1) d =
      .addImageMeasurement ("score".toList ++ natDigits (i + 1)) (.float (ss.getD i [])) := by
  induction n with
  | zero => omega
  | succ n ih =>
    rw [measList_succ]
    rcases Nat.lt_or_ge i n with h | h
    · rw [List.getD_append _ _ _ _ (by rw [measList_length]; omega)]
      exact ih h
    · have hin : i = n := by omega
      subst hin
      rw [List.getD_append_right _ _ _ _ (by rw [measList_length]; omega)]
      rw [measList_length]
      have h2 : 2 * i + 1 - 2 * i = 1 := by omega
      rw [h2]
      rfl

theorem measList_mem {cs ss : List PyStr} {n : ℕ} {e : Event}
    (h : e ∈ measList cs ss n) :
    ∃ i, i < n ∧
      (e = .addImageMeasurement ("class".toList ++ natDigits (i + 1)) (.str (cs.getD i [])) ∨
       e = .addImageMeasurement ("score".toList ++ natDigits (i + 1)) (.float (ss.getD i []))) := by
  simp only [measList, List.mem_flatMap, List.mem_range, List.mem_cons,
    List.mem_singleton, List.not_mem_nil, or_false] at h
  obtain ⟨i, hi, h⟩ := h
  exact ⟨i, hi, h⟩

theorem measList_isMeasEvent {cs ss : List PyStr} {n : ℕ} {e : Event}
    (h : e ∈ measList cs ss n) : isMeasEvent e = true := by
  obtain ⟨i, _, h | h⟩ := measList_mem h <;> subst h <;> rfl

theorem measEvents_measList (cs ss : List PyStr) (n : ℕ) :
    measEvents (measList cs ss n) = measList cs ss n :=
  List.filter_eq_self.mpr fun _ h => measList_isMeasEvent h

theorem measEvents_run_ok (loc : PyStr) (port : Int) (pd : List (List ℚ)) (response : PyStr)
    (classes scores : List PyStr) (lines : List PyVal)
    (h : parseLoop (pySplitChar '\n' response) [] [] [] = .ok (classes, scores, lines)) :
    measEvents ((run loc port pd response).1) =
      measList classes scores (min classes.length scores.length) := by
  rw [run_ok loc port pd response classes scores lines h]
  show measEvents ([.openChannel loc port, .createStub, .writeFile ("image.jpg".toList),
    .readFile ("image.jpg".toList), .classify]
      ++ measList classes scores (min classes.length scores.length)) = _
  rw [measEvents, List.filter_append]
  have h1 : List.filter isMeasEvent
      [Event.openChannel loc port, .createStub, .writeFile ("image.jpg".toList),
       .readFile ("image.jpg".toList), .classify] = [] := rfl
  rw [h1, List.nil_append]
  exact measEvents_measList ..

end RemoteService

namespace RemoteService

open Py

theorem measList_countP_zero (cs ss : List PyStr) (n : ℕ) (p : Event → Bool)
    (hp : ∀ f v, p (.addImageMeasurement f v) = false) :
    (measList cs ss n).countP p = 0 := by
  rw [List.countP_eq_zero]
  intro e he
  obtain ⟨i, -, h | h⟩ := measList_mem he <;> subst h <;> simp [hp]

theorem measList_not_meas {cs ss : List PyStr} {n : ℕ} {e : Event}
    (he : isMeasEvent e = false) : e ∉ measList cs ss n := by
  intro h
  rw [measList_isMeasEvent h] at he
  exact Bool.noConfusion he

/-- C3: the count of parsed lines is divided by two with `/`, whose
semantics differ between Python 2 (floor division) and Python 3 (true
division into a float); under Python-3 semantics the construction of
`disp_lines` via `range(len(lines) / 2)` raises a `TypeError` for every
parsed response yielding at least one line, instead of producing the
paired list. -/
theorem py3_disp_lines_construction_fails
    (response : PyStr) (classes scores : List PyStr) (lines : List PyVal)
    (hok : parseLoop (pySplitChar '\n' response) [] [] [] = .ok (classes, scores, lines))
    (hlen : 1 ≤ lines.length) :
    ∃ e, get_service_response_py3 response = .error e := by
  refine ⟨"TypeError: float object cannot be interpreted as an integer".toList, ?_⟩
  unfold get_service_response_py3
  rw [hok]
  rfl

theorem py3_disp_lines_construction_fails_witness :
    parseLoop (pySplitChar '\n' ("score: 1.0".toList)) [] [] []
        = .ok ([], ["1.0".toList], [.float ("1.0".toList)]) ∧
      1 ≤ ([PyVal.float ("1.0".toList)]).length ∧
      ∃ e, get_service_response_py3 ("score: 1.0".toList) = .error e :=
  ⟨by decide, by decide,
    py3_disp_lines_construction_fails ("score: 1.0".toList) [] ["1.0".toList]
      [.float ("1.0".toList)] (by decide) (by decide)⟩

/-- C6: for every `run` invocation that yields class/score pairs, the
i-th pair (from zero) is recorded as exactly two per-image
measurements: the class value under `class%d` and the score value under
`score%d`, with `%d = i + 1`. -/
theorem run_records_indexed_class_score_pairs
    (loc : PyStr) (port : Int) (pd : List (List ℚ)) (response : PyStr)
    (disp : List (List PyVal)) (scores classes : List PyStr) (i : ℕ)
    (hok : (get_service_response (gray2rgb pd) response).2 = .ok (disp, scores, classes))
    (hi : i < min classes.length scores.length) :
    (measEvents ((run loc port pd response).1)).length =
      2 * min classes.length scores.length ∧
    (measEvents ((run loc port pd response).1)).getD (2 * i) .classify =
      .addImageMeasurement ("class".toList ++ natDigits (i + 1)) (.str (classes.getD i [])) ∧
    (measEvents ((run loc port pd response).1)).getD (2 * i + 1) .classify =
      .addImageMeasurement ("score".toList ++ natDigits (i + 1)) (.float (scores.getD i [])) := by
  obtain ⟨lines, hP, -⟩ := get_service_response_ok_inv hok
  rw [measEvents_run_ok loc port pd response classes scores lines hP]
  exact ⟨measList_length .., measList_getD_even _ _ _ _ hi _, measList_getD_odd _ _ _ _ hi _⟩

theorem run_records_indexed_class_score_pairs_witness :
    (get_service_response (gray2rgb []) ("score: 0.5\nclass: (a)".toList)).2
        = .ok ([[.str ("a".toList), .float ("0.5".toList)]],
               ["0.5".toList], ["a".toList]) ∧
      0 < min ([("a".toList)] : List PyStr).length ([("0.5".toList)] : List PyStr).length ∧
      (measEvents ((run [] 9000 [] ("score: 0.5\nclass: (a)".toList)).1)).length =
        2 * min ([("a".toList)] : List PyStr).length ([("0.5".toList)] : List PyStr).length :=
  ⟨by decide, by decide,
    (run_records_indexed_class_score_pairs [] 9000 [] ("score: 0.5\nclass: (a)".toList)
      [[.str ("a".toList), .float ("0.5".toList)]] ["0.5".toList] ["a".toList] 0
      (by decide) (by decide)).1⟩

/-- C9: if the parsed response has unequal numbers of class and score
lines, `run` records exactly `min(len(classes), len(scores))`
class/score measurement pairs and the surplus entries produce no
measurement at all. -/
theorem run_unequal_lists_drop_surplus
    (loc : PyStr) (port : Int) (pd : List (List ℚ)) (response : PyStr)
    (disp : List (List PyVal)) (scores classes : List PyStr)
    (hok : (get_service_response (gray2rgb pd) response).2 = .ok (disp, scores, classes))
    (hne : classes.length ≠ scores.length) :
    (measEvents ((run loc port pd response).1)).length =
      2 * min classes.length scores.length ∧
    ∀ e ∈ measEvents ((run loc port pd response).1),
      ∃ i, i < min classes.length scores.length ∧
        (e = .addImageMeasurement ("class".toList ++ natDigits (i + 1))
              (.str (classes.getD i [])) ∨
         e = .addImageMeasurement ("score".toList ++ natDigits (i + 1))
              (.float (scores.getD i []))) := by
  obtain ⟨lines, hP, -⟩ := get_service_response_ok_inv hok
  rw [measEvents_run_ok loc port pd response classes scores lines hP]
  exact ⟨measList_length .., fun _ he => measList_mem he⟩

theorem run_unequal_lists_drop_surplus_witness :
    (get_service_response (gray2rgb []) ("score: 0.5\nclass: (a)\nclass: (b)".toList)).2
        = .ok ([[.str ("a".toList), .float ("0.5".toList)]],
               ["0.5".toList], ["a".toList, "b".toList]) ∧
      ([("a".toList), ("b".toList)] : List PyStr).length ≠ ([("0.5".toList)] : List PyStr).length ∧
      (measEvents ((run [] 9000 [] ("score: 0.5\nclass: (a)\nclass: (b)".toList)).1)).length =
        2 * min ([("a".toList), ("b".toList)] : List PyStr).length
          ([("0.5".toList)] : List PyStr).length :=
  ⟨by decide, by decide,
    (run_unequal_lists_drop_surplus [] 9000 [] ("score: 0.5\nclass: (a)\nclass: (b)".toList)
      [[.str ("a".toList), .float ("0.5".toList)]] ["0.5".toList]
      ["a".toList, "b".toList] (by decide) (by decide)).1⟩

/-- C10: a non-blank response line whose number of `:` separators is
not exactly one makes the two-element unpacking of `line.split(':')`
raise, so `get_service_response` returns an error (regardless of the
remaining lines) and the `run` for that image aborts, recording no
measurement. -/
theorem bad_colon_line_aborts_parse
    (good rest : List PyStr) (bad : PyStr)
    (acc : List PyStr × List PyStr × List PyVal)
    (hgood : parseLoop good [] [] [] = .ok acc)
    (hbad1 : pyStrip bad ≠ [])
    (hbad2 : (pySplitChar ':' bad).length ≠ 2) :
    (∃ e, parseLoop (good ++ bad :: rest) [] [] [] = .error e) ∧
    ∀ (loc : PyStr) (port : Int) (pd : List (List ℚ)) (response : PyStr),
      pySplitChar '\n' response = good ++ bad :: rest →
      (∃ e, (run loc port pd response).2 = .error e) ∧
      measEvents ((run loc port pd response).1) = [] := by
  have hstep : ∃ e, parseLoop (bad :: rest) acc.1 acc.2.1 acc.2.2 = .error e := by
    refine ⟨?_, ?_⟩
    case _ =>
      exact (if (pySplitChar ':' bad).length < 2 then
          "ValueError: need more than 1 value to unpack"
        else
          "ValueError: too many values to unpack").toList
    simp only [parseLoop, if_neg hbad1]
    rcases hsp : pySplitChar ':' bad with _ | ⟨t, _ | ⟨v, _ | ⟨w, ws⟩⟩⟩
    · rfl
    · rfl
    · exact absurd (by rw [hsp]; rfl) hbad2
    · rfl
  obtain ⟨e, he⟩ := hstep
  have hall : parseLoop (good ++ bad :: rest) [] [] [] = .error e := by
    rw [parseLoop_append, hgood]
    exact he
  refine ⟨⟨e, hall⟩, fun loc port pd response hresp => ?_⟩
  have hrun := run_error loc port pd response e (by rw [hresp]; exact hall)
  rw [hrun]
  exact ⟨⟨e, rfl⟩, rfl⟩

theorem bad_colon_line_aborts_parse_witness :
    parseLoop [] [] [] [] = .ok ([], [], []) ∧
      pyStrip ("hello".toList) ≠ [] ∧
      (pySplitChar ':' ("hello".toList)).length ≠ 2 ∧
      ∃ e, parseLoop ([] ++ ("hello".toList) :: []) [] [] [] = .error e :=
  ⟨by decide, by decide, by decide,
    (bad_colon_line_aborts_parse [] [] ("hello".toList) ([], [], [])
      (by decide) (by decide) (by decide)).1⟩

/-- C7: every invocation of `run` opens a new insecure channel to the
configured location and port and creates a new stub before anything
else; across any sequence of invocations the number of channels opened
and stubs created equals the number of invocations (no reuse or
pooling). -/
theorem run_opens_new_channel_each_invocation :
    (∀ (loc : PyStr) (port : Int) (pd : List (List ℚ)) (response : PyStr),
      (run loc port pd response).1.countP isOpenChannel = 1 ∧
      (run loc port pd response).1.countP isCreateStub = 1 ∧
      (run loc port pd response).1.take 2 = [.openChannel loc port, .createStub]) ∧
    ∀ (invs : List (PyStr × Int × List (List ℚ) × PyStr)),
      (runMany invs).countP isOpenChannel = invs.length ∧
      (runMany invs).countP isCreateStub = invs.length := by
  have hper : ∀ (loc : PyStr) (port : Int) (pd : List (List ℚ)) (response : PyStr),
      (run loc port pd response).1.countP isOpenChannel = 1 ∧
      (run loc port pd response).1.countP isCreateStub = 1 ∧
      (run loc port pd response).1.take 2 = [.openChannel loc port, .createStub] := by
    intro loc port pd response
    rcases hP : parseLoop (pySplitChar '\n' response) [] [] [] with e | ⟨cs, ss, ln⟩
    · rw [run_error loc port pd response e hP]
      exact ⟨rfl, rfl, rfl⟩
    · rw [run_ok loc port pd response cs ss ln hP]
      refine ⟨?_, ?_, rfl⟩
      · rw [List.countP_append, measList_countP_zero _ _ _ _ (fun _ _ => rfl)]
        rfl
      · rw [List.countP_append, measList_countP_zero _ _ _ _ (fun _ _ => rfl)]
        rfl
  refine ⟨hper, ?_⟩
  intro invs
  induction invs with
  | nil => exact ⟨rfl, rfl⟩
  | cons inv rest ih =>
    have h1 : runMany (inv :: rest) = (run inv.1 inv.2.1 inv.2.2.1 inv.2.2.2).1 ++ runMany rest := by
      simp [runMany]
    rw [h1, List.countP_append, List.countP_append, List.length_cons,
      (hper inv.1 inv.2.1 inv.2.2.1 inv.2.2.2).1,
      (hper inv.1 inv.2.1 inv.2.2.1 inv.2.2.2).2.1, ih.1, ih.2]
    omega

/-- C8: every invocation of `get_service_response` writes the
transmitted image to the single hardcoded file `image.jpg` in the
working directory and then reads that same file back; the name is a
constant independent of the pixels, the response, and every setting
(the pixels, location, port and response below are arbitrary). -/
theorem get_service_response_hardcoded_file :
    ∀ (pixels : List (List (List ℚ))) (response loc : PyStr) (port : Int)
      (pd : List (List ℚ)),
      (get_service_response pixels response).1 =
        [.writeFile ("image.jpg".toList), .readFile ("image.jpg".toList), .classify] ∧
      (run loc port pd response).1.countP isWriteFile = 1 ∧
      (run loc port pd response).1.countP isReadFile = 1 ∧
      (∀ nm, Event.writeFile nm ∈ (run loc port pd response).1 → nm = "image.jpg".toList) ∧
      (∀ nm, Event.readFile nm ∈ (run loc port pd response).1 → nm = "image.jpg".toList) := by
  intro pixels response loc port pd
  have hfst : (get_service_response pixels response).1 =
      [.writeFile ("image.jpg".toList), .readFile ("image.jpg".toList), .classify] := by
    rcases hP : parseLoop (pySplitChar '\n' response) [] [] [] with e | ⟨cs, ss, ln⟩ <;>
      simp only [get_service_response, hP]
  rcases hP : parseLoop (pySplitChar '\n' response) [] [] [] with e | ⟨cs, ss, ln⟩
  · rw [run_error loc port pd response e hP]
    refine ⟨hfst, rfl, rfl, ?_, ?_⟩ <;>
      · intro nm h
        simp only [List.mem_cons, List.not_mem_nil, or_false] at h
        rcases h with h | h | h | h | h <;> first
          | exact Event.noConfusion h
          | exact (Event.writeFile.inj h)
          | exact (Event.readFile.inj h)
  · rw [run_ok loc port pd response cs ss ln hP]
    refine ⟨hfst, ?_, ?_, ?_, ?_⟩
    · rw [List.countP_append, measList_countP_zero _ _ _ _ (fun _ _ => rfl)]
      rfl
    · rw [List.countP_append, measList_countP_zero _ _ _ _ (fun _ _ => rfl)]
      rfl
    all_goals
      intro nm h
      rcases List.mem_append.mp h with h | h
      · simp only [List.mem_cons, List.not_mem_nil, or_false] at h
        rcases h with h | h | h | h | h <;> first
          | exact Event.noConfusion h
          | exact (Event.writeFile.inj h)
          | exact (Event.readFile.inj h)
      · exact absurd h (measList_not_meas rfl)

end RemoteService

namespace Py

theorem pySplitChar_ne_nil (sep : Char) (s : PyStr) : pySplitChar sep s ≠ [] := by
  induction s with
  | nil => simp [pySplitChar]
  | cons c rest ih =>
    simp only [pySplitChar]
    split
    · simp
    · rcases h : pySplitChar sep rest with _ | ⟨g, gs⟩ <;> simp

theorem pySplitChar_cons_ne (sep c : Char) (s : PyStr) (h : ¬ c = sep) :
    pySplitChar sep (c :: s) =
      (c :: (pySplitChar sep s).headD []) :: (pySplitChar sep s).tail := by
  simp only [pySplitChar, if_neg h]
  rcases hr : pySplitChar sep s with _ | ⟨g, gs⟩
  · exact absurd hr (pySplitChar_ne_nil sep s)
  · rfl

theorem pySplitChar_cons_eq (sep : Char) (s : PyStr) :
    pySplitChar sep (sep :: s) = [] :: pySplitChar sep s := by
  simp [pySplitChar]

theorem pySplitChar_no_sep (sep : Char) (s : PyStr) (h : sep ∉ s) :
    pySplitChar sep s = [s] := by
  induction s with
  | nil => rfl
  | cons c rest ih =>
    have hc : ¬ c = sep := fun hh => h (hh ▸ List.mem_cons_self c rest)
    rw [pySplitChar_cons_ne sep c rest hc, ih (fun hm => h (List.mem_cons_of_mem c hm))]
    rfl

theorem pySplitChar_block (sep : Char) (a b : PyStr) (ha : sep ∉ a) (hb : sep ∉ b) :
    pySplitChar sep (a ++ sep :: b) = [a, b] := by
  induction a with
  | nil =>
    rw [List.nil_append, pySplitChar_cons_eq, pySplitChar_no_sep sep b hb]
  | cons c rest ih =>
    have hc : ¬ c = sep := fun hh => ha (hh ▸ List.mem_cons_self ..)
    rw [List.cons_append, pySplitChar_cons_ne sep c _ hc,
      ih (fun hm => ha (List.mem_cons_of_mem c hm))]
    rfl

theorem pyStrip_cons_ne_nil (c : Char) (s : PyStr) (h : isPySpace c = false) :
    pyStrip (c :: s) ≠ [] := by
  intro hc
  unfold pyStrip at hc
  rw [List.dropWhile_cons] at hc
  simp only [h, Bool.false_eq_true, if_false] at hc
  rw [List.reverse_eq_nil_iff, List.dropWhile_eq_nil_iff] at hc
  have h2 := hc c (by simp)
  rw [h] at h2
  exact Bool.noConfusion h2

end Py

namespace RemoteService

open Py

theorem parseLoop_score_block (svals : List PyStr) (cs ss : List PyStr) (ln : List PyVal)
    (hs : ∀ v ∈ svals, isFloatLit (pyStrip v) = true ∧ ':' ∉ v) :
    parseLoop (svals.map (fun v => "score:".toList ++ v)) cs ss ln =
      .ok (cs, ss ++ svals.map pyStrip, ln ++ svals.map (fun v => .float (pyStrip v))) := by
  induction svals generalizing ss ln with
  | nil => simp [parseLoop]
  | cons v rest ih =>
    obtain ⟨hf, hcol⟩ := hs v (List.mem_cons_self ..)
    have hline : ¬ pyStrip ("score:".toList ++ v) = [] :=
      pyStrip_cons_ne_nil 's' _ rfl
    have hsplit : pySplitChar ':' ("score:".toList ++ v) = ["score".toList, v] := by
      have he : "score:".toList ++ v = "score".toList ++ ':' :: v := rfl
      rw [he, pySplitChar_block ':' _ v (by decide) hcol]
    simp only [List.map_cons, parseLoop, if_neg hline, hsplit]
    rw [if_pos (show pyStartsWith ("score".toList) ("score".toList) = true from rfl),
      if_pos hf, ih _ _ (fun u hu => hs u (List.mem_cons_of_mem v hu))]
    simp

theorem parseLoop_class_block (cvals : List PyStr) (cs ss : List PyStr) (ln : List PyVal)
    (hc : ∀ v ∈ cvals, ':' ∉ v) :
    parseLoop (cvals.map (fun v => "class:".toList ++ v)) cs ss ln =
      .ok (cs ++ cvals.map (fun v => pySlice1Neg1 (pyStrip v)), ss,
           ln ++ cvals.map (fun v => .str (pySlice1Neg1 (pyStrip v)))) := by
  induction cvals generalizing cs ln with
  | nil => simp [parseLoop]
  | cons v rest ih =>
    have hcol := hc v (List.mem_cons_self ..)
    have hline : ¬ pyStrip ("class:".toList ++ v) = [] :=
      pyStrip_cons_ne_nil 'c' _ rfl
    have hsplit : pySplitChar ':' ("class:".toList ++ v) = ["class".toList, v] := by
      have he : "class:".toList ++ v = "class".toList ++ ':' :: v := rfl
      rw [he, pySplitChar_block ':' _ v (by decide) hcol]
    simp only [List.map_cons, parseLoop, if_neg hline, hsplit]
    rw [if_neg (show ¬ pyStartsWith ("class".toList) ("score".toList) = true by decide),
      if_pos (show pyStartsWith ("class".toList) ("class".toList) = true from rfl),
      ih _ _ (fun u hu => hc u (List.mem_cons_of_mem v hu))]
    simp

theorem mkDispLines_blocks (sf cf : List PyVal) (h : cf.length = sf.length) :
    mkDispLines (sf ++ cf) =
      (List.range sf.length).map fun i => [cf.getD i (.str []), sf.getD i (.str [])] := by
  have hdiv : (sf ++ cf).length / 2 = sf.length := by
    rw [List.length_append, h, ← Nat.two_mul, Nat.mul_div_cancel_left _ (by norm_num)]
  unfold mkDispLines
  rw [hdiv]
  apply List.map_congr_left
  intro i hi
  rw [List.mem_range] at hi
  rw [List.getD_append_right _ _ _ _ (Nat.le_add_right ..), Nat.add_sub_cancel_left,
    List.getD_append _ _ _ _ hi]

theorem getD_map_of_lt {α β : Type _} (f : α → β) (l : List α) (i : ℕ) (hi : i < l.length)
    (d : α) (d' : β) : (l.map f).getD i d' = f (l.getD i d) := by
  rw [List.getD_eq_getElem?_getD, List.getElem?_map, List.getD_eq_getElem?_getD,
    List.getElem?_eq_getElem hi]
  simp

/-- C1 is false as stated: the pairing of `disp_lines` is not
independent of line order.  For the interleaved response
`score/class/score/class` the parse succeeds, yet the first `disp_lines`
entry pairs the two scores with each other and the second pairs the two
classes, so no entry pairs a class with its score. -/
theorem disp_lines_pairing_cex :
    (get_service_response (gray2rgb [])
        ("score: 0.5\nclass: (a)\nscore: 0.7\nclass: (b)".toList)).2
      = .ok ([[.float ("0.7".toList), .float ("0.5".toList)],
              [.str ("b".toList), .str ("a".toList)]],
             ["0.5".toList, "0.7".toList], ["a".toList, "b".toList]) ∧
    ¬ pairsEachClassWithItsScore
        [[.float ("0.7".toList), .float ("0.5".toList)],
         [.str ("b".toList), .str ("a".toList)]]
        ["0.5".toList, "0.7".toList] ["a".toList, "b".toList] :=
  ⟨by decide, by decide⟩

/-- C1 (amended): the `classes` and `scores` lists returned by
`get_service_response` preserve response order under every line order
(`run` then pairs them index-wise, see the C6 theorem); `disp_lines`
pairs each class with its score when the response lists all `score`
lines before all `class` lines in equal numbers — for interleaved
orders the pairing fails (see the counterexample). -/
theorem disp_lines_pairing_for_block_ordered_responses
    (pixels : List (List (List ℚ))) (response : PyStr) (svals cvals : List PyStr)
    (hsplit : pySplitChar '\n' response =
      svals.map (fun v => "score:".toList ++ v) ++ cvals.map (fun v => "class:".toList ++ v))
    (hn : svals.length = cvals.length)
    (hs : ∀ v ∈ svals, isFloatLit (pyStrip v) = true ∧ ':' ∉ v)
    (hc : ∀ v ∈ cvals, ':' ∉ v) :
    (get_service_response pixels response).2 =
      .ok (mkDispLines (svals.map (fun v => .float (pyStrip v)) ++
             cvals.map (fun v => .str (pySlice1Neg1 (pyStrip v)))),
           svals.map pyStrip, cvals.map (fun v => pySlice1Neg1 (pyStrip v))) ∧
    pairsEachClassWithItsScore
      (mkDispLines (svals.map (fun v => .float (pyStrip v)) ++
         cvals.map (fun v => .str (pySlice1Neg1 (pyStrip v)))))
      (svals.map pyStrip) (cvals.map (fun v => pySlice1Neg1 (pyStrip v))) := by
  have hparse : parseLoop (pySplitChar '\n' response) [] [] [] =
      .ok (cvals.map (fun v => pySlice1Neg1 (pyStrip v)), svals.map pyStrip,
           svals.map (fun v => PyVal.float (pyStrip v)) ++
             cvals.map (fun v => PyVal.str (pySlice1Neg1 (pyStrip v)))) := by
    rw [hsplit, parseLoop_append, parseLoop_score_block svals [] [] [] hs]
    show parseLoop (cvals.map (fun v => "class:".toList ++ v)) []
        ([] ++ svals.map pyStrip) ([] ++ svals.map (fun v => PyVal.float (pyStrip v))) = _
    rw [parseLoop_class_block cvals _ _ _ hc]
    simp
  constructor
  · simp only [get_service_response, hparse]
  · have hsf : (svals.map (fun v => PyVal.float (pyStrip v))).length = svals.length :=
      List.length_map ..
    have hcf : (cvals.map (fun v => PyVal.str (pySlice1Neg1 (pyStrip v)))).length
        = cvals.length := List.length_map ..
    rw [mkDispLines_blocks _ _ (by rw [hsf, hcf, hn])]
    constructor
    · simp [hn]
    · intro i hi
      rw [List.length_map, List.length_range, hsf] at hi
      rw [List.mem_range] at hi
      right
      rw [getD_map_of_lt _ (List.range _) i (by rw [List.length_range, hsf]; exact hi) 0 []]
      have hri : (List.range ((svals.map (fun v => PyVal.float (pyStrip v))).length)).getD i 0
          = i := by
        rw [List.getD_eq_getElem?_getD, List.getElem?_range (by rw [hsf]; exact hi)]
        rfl
      rw [hri]
      have hc2 : (cvals.map (fun v => PyVal.str (pySlice1Neg1 (pyStrip v))))
          = (cvals.map (fun v => pySlice1Neg1 (pyStrip v))).map PyVal.str := by
        rw [List.map_map]
        rfl
      have hs2 : (svals.map (fun v => PyVal.float (pyStrip v)))
          = (svals.map pyStrip).map PyVal.float := by
        rw [List.map_map]
        rfl
      rw [hc2, hs2,
        getD_map_of_lt PyVal.str _ i (by rw [List.length_map]; omega) [] (.str []),
        getD_map_of_lt PyVal.float _ i (by rw [List.length_map]; omega) [] (.str [])]

theorem disp_lines_pairing_for_block_ordered_responses_witness :
    pySplitChar '\n' ("score: 0.5\nclass: (a)".toList) =
        ([" 0.5".toList] : List PyStr).map (fun v => "score:".toList ++ v) ++
          ([" (a)".toList] : List PyStr).map (fun v => "class:".toList ++ v) ∧
      ([" 0.5".toList] : List PyStr).length = ([" (a)".toList] : List PyStr).length ∧
      pairsEachClassWithItsScore
        (mkDispLines (([" 0.5".toList] : List PyStr).map (fun v => .float (pyStrip v)) ++
           ([" (a)".toList] : List PyStr).map (fun v => .str (pySlice1Neg1 (pyStrip v)))))
        (([" 0.5".toList] : List PyStr).map pyStrip)
        (([" (a)".toList] : List PyStr).map (fun v => pySlice1Neg1 (pyStrip v))) :=
  ⟨by decide, by decide,
    (disp_lines_pairing_for_block_ordered_responses (gray2rgb [])
      ("score: 0.5\nclass: (a)".toList) [" 0.5".toList] [" (a)".toList]
      (by decide) (by decide) (by decide) (by decide)).2⟩

end RemoteService

namespace NeuralFeatures

theorem measKeys_append (a b : List Event) :
    measKeys (a ++ b) = measKeys a ++ measKeys b :=
  List.filterMap_append a b _

theorem keyBlocks_append (F : ℕ) (a b : List ℕ) :
    keyBlocks F (a ++ b) = keyBlocks F a ++ keyBlocks F b :=
  List.flatMap_append a b _

theorem keyBlocks_nodup (F : ℕ) (nums : List ℕ) (h : nums.Nodup) :
    (keyBlocks F nums).Nodup := by
  rw [keyBlocks, List.nodup_flatMap]
  refine ⟨fun n _ => ?_, ?_⟩
  · exact (List.nodup_range F).map fun a b hab => (Prod.mk.injEq .. ▸ hab).2
  · refine h.imp ?_
    intro a b hab x hxa hxb
    rw [List.mem_map] at hxa hxb
    obtain ⟨ja, -, rfl⟩ := hxa
    obtain ⟨jb, -, hx⟩ := hxb
    exact hab (Prod.mk.injEq .. ▸ hx).1.symm

theorem flatMap_range_getD {α β : Type _} (l : List α) (d : α) (g : α → List β) :
    (List.range l.length).flatMap (fun i => g (l.getD i d)) = l.flatMap g := by
  induction l with
  | nil => rfl
  | cons x xs ih =>
    rw [List.length_cons, List.range_succ_eq_map, List.flatMap_cons, List.flatMap_map,
      List.flatMap_cons]
    exact congrArg (_ ++ ·) (ih ▸ rfl)

theorem filterMap_flatMap {α β γ : Type _} (l : List α) (g : α → List β) (f : β → Option γ) :
    List.filterMap f (l.flatMap g) = l.flatMap fun a => List.filterMap f (g a) := by
  induction l with
  | nil => rfl
  | cons x xs ih => rw [List.flatMap_cons, List.filterMap_append, List.flatMap_cons, ih]

theorem filterMap_always_some {α β : Type _} (f : α → Option β) (g : α → β)
    (h : ∀ a, f a = some (g a)) (l : List α) : List.filterMap f l = l.map g := by
  induction l with
  | nil => rfl
  | cons x xs ih => rw [List.filterMap_cons, h, List.map_cons, ih]

theorem process_batch_state (net : List Pixels → List (List ℚ)) (d : NeuralDict) :
    (process_batch net d).1 = { d with images := [], image_set_numbers := [] } :=
  rfl

theorem process_batch_measKeys (net : List Pixels → List (List ℚ)) (F : ℕ) (d : NeuralDict)
    (hnet : (net d.images).length = d.images.length)
    (hF : ∀ r ∈ net d.images, r.length = F)
    (hpar : d.images.length = d.image_set_numbers.length) :
    measKeys (process_batch net d).2 = keyBlocks F d.image_set_numbers := by
  have hkeys : measKeys (process_batch net d).2 =
      (List.range (net d.images).length).flatMap fun i =>
        (List.range ((net d.images).headD []).length).map fun j =>
          (d.image_set_numbers.getD i 0, j) := by
    show measKeys (Event.runNetwork _ :: _) = _
    rw [measKeys, List.filterMap_cons]
    rw [filterMap_flatMap]
    refine congrArg (List.flatMap (List.range (net d.images).length)) (funext fun i => ?_)
    rw [List.filterMap_map]
    exact filterMap_always_some _ _ (fun _ => rfl) _
  rcases hni : net d.images with _ | ⟨r0, rs⟩
  · rw [hkeys, hni]
    have h0 : d.image_set_numbers = [] := by
      have := hnet
      rw [hni] at this
      have h2 : d.images.length = 0 := by rw [← this]; rfl
      rw [← List.length_eq_zero, ← hpar, h2]
    rw [h0]
    rfl
  · have hF0 : ((net d.images).headD []).length = F := by
      rw [hni]
      exact hF r0 (by rw [hni]; exact List.mem_cons_self ..)
    rw [hkeys, hF0, show (net d.images).length = d.image_set_numbers.length by
      rw [hnet, hpar]]
    exact flatMap_range_getD d.image_set_numbers 0 fun n => (List.range F).map fun j => (n, j)

end NeuralFeatures

namespace NeuralFeatures

theorem run_flush_eq (bs : ℕ) (net : List Pixels → List (List ℚ)) (pix : Pixels)
    (num : ℕ) (d : NeuralDict) (h : bs ≤ d.images.length + 1) :
    run bs net pix num d =
      ({ count := d.count + 1, images := [], image_set_numbers := [],
         modelLoaded := d.modelLoaded },
       (process_batch net
         { d with
             images := d.images ++ [pix],
             image_set_numbers := d.image_set_numbers ++ [num] }).2) := by
  have h' : bs ≤ ({ d with
      images := d.images ++ [pix],
      image_set_numbers := d.image_set_numbers ++ [num] } : NeuralDict).images.length := by
    simpa using h
  simp only [run, if_pos h']
  rfl

theorem run_no_flush_eq (bs : ℕ) (net : List Pixels → List (List ℚ)) (pix : Pixels)
    (num : ℕ) (d : NeuralDict) (h : ¬ bs ≤ d.images.length + 1) :
    run bs net pix num d =
      ({ count := d.count + 1, images := d.images ++ [pix],
         image_set_numbers := d.image_set_numbers ++ [num],
         modelLoaded := d.modelLoaded }, []) := by
  have h' : ¬ bs ≤ ({ d with
      images := d.images ++ [pix],
      image_set_numbers := d.image_set_numbers ++ [num] } : NeuralDict).images.length := by
    simpa using h
  simp only [run, if_neg h']

theorem post_group_flush_eq (net : List Pixels → List (List ℚ)) (d : NeuralDict)
    (h : 0 < d.images.length) :
    post_group net d =
      ({ d with images := [], image_set_numbers := [] }, (process_batch net d).2) := by
  simp only [post_group, if_pos h]
  rfl

theorem post_group_empty_eq (net : List Pixels → List (List ℚ)) (d : NeuralDict)
    (h : ¬ 0 < d.images.length) : post_group net d = (d, []) := by
  simp only [post_group, if_neg h]

theorem process_batch_flush_count (net : List Pixels → List (List ℚ)) (d : NeuralDict) :
    (process_batch net d).2.countP isFlush = 1 := by
  show List.countP isFlush (Event.runNetwork _ :: _) = 1
  rw [List.countP_cons]
  have h0 : List.countP isFlush ((List.range (net d.images).length).flatMap fun i =>
      (List.range ((net d.images).headD []).length).map fun j =>
        Event.addMeasurement (d.image_set_numbers.getD i 0) j
          (((net d.images).getD i []).getD j 0)) = 0 := by
    rw [List.countP_eq_zero]
    intro e he
    rw [List.mem_flatMap] at he
    obtain ⟨i, -, he⟩ := he
    rw [List.mem_map] at he
    obtain ⟨j, -, rfl⟩ := he
    exact fun hh => Bool.noConfusion hh
  rw [h0]
  rfl

theorem process_batch_load_count (net : List Pixels → List (List ℚ)) (d : NeuralDict) :
    (process_batch net d).2.countP isLoadModel = 0 := by
  rw [List.countP_eq_zero]
  intro e he
  replace he : e ∈ Event.runNetwork (net d.images).length ::
      ((List.range (net d.images).length).flatMap fun i =>
        (List.range ((net d.images).headD []).length).map fun j =>
          Event.addMeasurement (d.image_set_numbers.getD i 0) j
            (((net d.images).getD i []).getD j 0)) := he
  rw [List.mem_cons] at he
  rcases he with rfl | he
  · exact fun hh => Bool.noConfusion hh
  · rw [List.mem_flatMap] at he
    obtain ⟨i, -, he⟩ := he
    rw [List.mem_map] at he
    obtain ⟨j, -, rfl⟩ := he
    exact fun hh => Bool.noConfusion hh

theorem run_load_count (bs : ℕ) (net : List Pixels → List (List ℚ)) (pix : Pixels)
    (num : ℕ) (d : NeuralDict) :
    (run bs net pix num d).2.countP isLoadModel = 0 := by
  by_cases h : bs ≤ d.images.length + 1
  · rw [run_flush_eq bs net pix num d h]
    exact process_batch_load_count ..
  · rw [run_no_flush_eq bs net pix num d h]
    rfl

theorem runSteps_load_count (bs : ℕ) (net : List Pixels → List (List ℚ)) :
    ∀ (inputs : List (Pixels × ℕ)) (d : NeuralDict),
      (runSteps bs net inputs d).2.countP isLoadModel = 0 := by
  intro inputs
  induction inputs with
  | nil => intro d; rfl
  | cons input rest ih =>
    intro d
    obtain ⟨pix, num⟩ := input
    show List.countP isLoadModel ((run bs net pix num d).2 ++ _) = 0
    rw [List.countP_append, run_load_count, ih]

theorem post_group_load_count (net : List Pixels → List (List ℚ)) (d : NeuralDict) :
    (post_group net d).2.countP isLoadModel = 0 := by
  by_cases h : 0 < d.images.length
  · rw [post_group_flush_eq net d h]
    exact process_batch_load_count ..
  · rw [post_group_empty_eq net d h]
    rfl

theorem runSteps_spec (bs : ℕ) (net : List Pixels → List (List ℚ)) (F : ℕ)
    (hbs : 1 ≤ bs)
    (hnet : ∀ b, (net b).length = b.length)
    (hF : ∀ b, ∀ r ∈ net b, r.length = F) :
    ∀ (inputs : List (Pixels × ℕ)) (d : NeuralDict),
      d.images.length = d.image_set_numbers.length →
      ∃ flushed,
        measKeys (runSteps bs net inputs d).2 = keyBlocks F flushed ∧
        flushed ++ (runSteps bs net inputs d).1.image_set_numbers =
          d.image_set_numbers ++ inputs.map Prod.snd ∧
        (runSteps bs net inputs d).1.images.length =
          (runSteps bs net inputs d).1.image_set_numbers.length ∧
        (d.images.length < bs → (runSteps bs net inputs d).1.images.length < bs) := by
  intro inputs
  induction inputs with
  | nil =>
    intro d hpar
    refine ⟨[], rfl, ?_, hpar, fun h => h⟩
    show ([] : List ℕ) ++ d.image_set_numbers = d.image_set_numbers ++ List.map Prod.snd []
    simp
  | cons input rest ih =>
    intro d hpar
    obtain ⟨pix, num⟩ := input
    by_cases hflush : bs ≤ d.images.length + 1
    · have hrun := run_flush_eq bs net pix num d hflush
      have hsteps : runSteps bs net ((pix, num) :: rest) d =
          ((runSteps bs net rest (run bs net pix num d).1).1,
           (run bs net pix num d).2 ++ (runSteps bs net rest (run bs net pix num d).1).2) :=
        rfl
      rw [hsteps, hrun]
      obtain ⟨fl, h1, h2, h3, h4⟩ := ih
        { count := d.count + 1,
          images := [],
          image_set_numbers := [],
          modelLoaded := d.modelLoaded } rfl
      have hkeys1 : measKeys (process_batch net
          { d with
              images := d.images ++ [pix],
              image_set_numbers := d.image_set_numbers ++ [num] }).2 =
          keyBlocks F (d.image_set_numbers ++ [num]) :=
        process_batch_measKeys net F _ (hnet _) (hF _) (by simp [hpar])
      refine ⟨(d.image_set_numbers ++ [num]) ++ fl, ?_, ?_, h3, fun _ => h4 (by
        show ([] : List Pixels).length < bs
        simpa using hbs)⟩
      · rw [measKeys_append, hkeys1, h1, keyBlocks_append, keyBlocks_append,
          keyBlocks_append]
      · rw [List.append_assoc, h2]
        simp
    · have hrun := run_no_flush_eq bs net pix num d hflush
      have hsteps : runSteps bs net ((pix, num) :: rest) d =
          ((runSteps bs net rest (run bs net pix num d).1).1,
           (run bs net pix num d).2 ++ (runSteps bs net rest (run bs net pix num d).1).2) :=
        rfl
      rw [hsteps, hrun]
      obtain ⟨fl, h1, h2, h3, h4⟩ := ih
        { count := d.count + 1,
          images := d.images ++ [pix],
          image_set_numbers := d.image_set_numbers ++ [num],
          modelLoaded := d.modelLoaded } (by simp [hpar])
      refine ⟨fl, ?_, ?_, h3, fun _ => h4 (by simp; omega)⟩
      · exact h1
      · rw [h2]
        simp

end NeuralFeatures

namespace NeuralFeatures

theorem runGroup_eq (bs : ℕ) (net : List Pixels → List (List ℚ))
    (inputs : List (Pixels × ℕ)) :
    runGroup bs net inputs =
      ((post_group net (runSteps bs net inputs prepare_group.1).1).1,
       prepare_group.2 ++ (runSteps bs net inputs prepare_group.1).2 ++
         (post_group net (runSteps bs net inputs prepare_group.1).1).2) :=
  rfl

/-- C2: within one processing group of `MeasureNeuralFeatures`, the
batch accumulator flushes (invokes `process_batch`, i.e. one network
run) exactly when the number of accumulated images reaches
`batch_size`, or in `post_group` when the accumulator is non-empty; and
across the whole group the emitted measurement keys are exactly one
per (image-set number, feature index) pair, with no duplicates when the
group's image-set numbers are distinct.  `net` is the loaded network
(one feature row of width `F` per batch image). -/
theorem batch_flush_timing_and_no_duplicate_measurements
    (bs F : ℕ) (net : List Pixels → List (List ℚ)) (inputs : List (Pixels × ℕ))
    (hbs : 1 ≤ bs)
    (hnet : ∀ b, (net b).length = b.length)
    (hF : ∀ b, ∀ r ∈ net b, r.length = F)
    (hnodup : (inputs.map Prod.snd).Nodup) :
    measKeys (runGroup bs net inputs).2 = keyBlocks F (inputs.map Prod.snd) ∧
    (measKeys (runGroup bs net inputs).2).Nodup ∧
    (∀ (pix : Pixels) (num : ℕ) (d : NeuralDict), d.images.length < bs →
      (((run bs net pix num d).2.countP isFlush = 1) ↔ d.images.length + 1 = bs) ∧
      (run bs net pix num d).1.images.length < bs) ∧
    (∀ d : NeuralDict,
      (((post_group net d).2.countP isFlush = 1) ↔ d.images.length ≠ 0) ∧
      (((post_group net d).2.countP isFlush = 0) ↔ d.images.length = 0)) := by
  have hchar : measKeys (runGroup bs net inputs).2 = keyBlocks F (inputs.map Prod.snd) := by
    rw [runGroup_eq]
    obtain ⟨fl, h1, h2, h3, h4⟩ := runSteps_spec bs net F hbs hnet hF inputs
      prepare_group.1 rfl
    rw [measKeys_append, measKeys_append]
    have hpre : measKeys prepare_group.2 = [] := rfl
    rw [hpre, List.nil_append, h1]
    by_cases hpost : 0 < (runSteps bs net inputs prepare_group.1).1.images.length
    · rw [post_group_flush_eq net _ hpost,
        process_batch_measKeys net F _ (hnet _) (hF _) h3, ← keyBlocks_append, h2]
      rfl
    · have hz : (runSteps bs net inputs prepare_group.1).1.image_set_numbers = [] := by
        rw [← List.length_eq_zero, ← h3]
        omega
      rw [post_group_empty_eq net _ hpost]
      have h2' : fl = inputs.map Prod.snd := by
        rw [hz, List.append_nil] at h2
        exact h2
      rw [h2']
      simp [measKeys]
  refine ⟨hchar, hchar ▸ keyBlocks_nodup F _ hnodup, ?_, ?_⟩
  · intro pix num d hinv
    by_cases hcap : d.images.length + 1 = bs
    · rw [run_flush_eq bs net pix num d (by omega)]
      constructor
      · rw [process_batch_flush_count]
        exact ⟨fun _ => hcap, fun _ => rfl⟩
      · show ([] : List Pixels).length < bs
        simpa using hbs
    · rw [run_no_flush_eq bs net pix num d (by omega)]
      constructor
      · rw [show List.countP isFlush [] = 0 from rfl]
        exact ⟨fun h => absurd h (by omega), fun h => absurd h hcap⟩
      · show (d.images ++ [pix]).length < bs
        rw [List.length_append]
        simp
        omega
  · intro d
    by_cases h0 : 0 < d.images.length
    · rw [post_group_flush_eq net d h0, process_batch_flush_count]
      exact ⟨⟨fun _ => by omega, fun _ => rfl⟩, ⟨fun h => absurd h (by omega),
        fun h => absurd h (by omega)⟩⟩
    · rw [post_group_empty_eq net d h0]
      have hlen0 : d.images.length = 0 := by omega
      rw [show List.countP isFlush ([] : List Event) = 0 from rfl, hlen0]
      simp

theorem batch_flush_timing_and_no_duplicate_measurements_witness :
    1 ≤ 1 ∧
      (∀ b : List Pixels, (b.map fun _ => ([0] : List ℚ)).length = b.length) ∧
      (∀ b : List Pixels, ∀ r ∈ b.map fun _ => ([0] : List ℚ), r.length = 1) ∧
      (([([[0]], 3), ([[0]], 7)] : List (Pixels × ℕ)).map Prod.snd).Nodup ∧
      measKeys (runGroup 1 (fun b => b.map fun _ => ([0] : List ℚ))
          [([[0]], 3), ([[0]], 7)]).2 =
        keyBlocks 1 (([([[0]], 3), ([[0]], 7)] : List (Pixels × ℕ)).map Prod.snd) :=
  ⟨by omega, fun b => List.length_map .., fun b r hr => by
      rw [List.mem_map] at hr
      obtain ⟨x, -, rfl⟩ := hr
      rfl,
    by decide,
    (batch_flush_timing_and_no_duplicate_measurements 1 1
      (fun b => b.map fun _ => ([0] : List ℚ)) [([[0]], 3), ([[0]], 7)]
      (by omega) (fun b => List.length_map ..)
      (fun b r hr => by
        rw [List.mem_map] at hr
        obtain ⟨x, -, rfl⟩ := hr
        rfl)
      (by decide)).1⟩

/-- C5: the model (session, graph, tensors) is loaded exactly once per
processing group, in `prepare_group`, and never during any `run`
invocation or `post_group`: the whole-group trace contains exactly one
load event, `prepare_group` emits exactly it, and `run` only reads the
already-loaded state (its `modelLoaded` flag is passed through
unchanged). -/
theorem model_loaded_once_per_group_in_prepare (bs : ℕ)
    (net : List Pixels → List (List ℚ)) (inputs : List (Pixels × ℕ)) :
    (runGroup bs net inputs).2.countP isLoadModel = 1 ∧
    prepare_group.2 = [Event.loadModel] ∧
    (∀ (pix : Pixels) (num : ℕ) (d : NeuralDict),
      (run bs net pix num d).2.countP isLoadModel = 0 ∧
      (run bs net pix num d).1.modelLoaded = d.modelLoaded) ∧
    (∀ d : NeuralDict, (post_group net d).2.countP isLoadModel = 0) := by
  refine ⟨?_, rfl, ?_, post_group_load_count net⟩
  · rw [runGroup_eq, List.countP_append, List.countP_append, runSteps_load_count,
      post_group_load_count]
    rfl
  · intro pix num d
    refine ⟨run_load_count .., ?_⟩
    by_cases h : bs ≤ d.images.length + 1
    · rw [run_flush_eq bs net pix num d h]
    · rw [run_no_flush_eq bs net pix num d h]

end NeuralFeatures

namespace DistanceTransform

theorem foldl_min_mem (d : ℕ) (ds : List ℕ) : ds.foldl min d ∈ d :: ds := by
  induction ds generalizing d with
  | nil => exact List.mem_singleton.mpr rfl
  | cons e es ih =>
    rw [List.foldl_cons]
    rcases List.mem_cons.mp (ih (min d e)) with h | h
    · rcases Nat.le_total d e with hde | hde
      · exact List.mem_cons.mpr (Or.inl (h.trans (Nat.min_eq_left hde)))
      · exact List.mem_cons.mpr
          (Or.inr (List.mem_cons.mpr (Or.inl (h.trans (Nat.min_eq_right hde)))))
    · exact List.mem_cons.mpr (Or.inr (List.mem_cons.mpr (Or.inr h)))

theorem foldl_min_le (d : ℕ) (ds : List ℕ) (e : ℕ) (he : e ∈ d :: ds) :
    ds.foldl min d ≤ e := by
  induction ds generalizing d e with
  | nil =>
    rw [List.mem_singleton] at he
    subst he
    exact Nat.le_refl _
  | cons f fs ih =>
    rw [List.foldl_cons]
    rcases List.mem_cons.mp he with rfl | he2
    · exact Nat.le_trans (ih (min e f) (min e f) (List.mem_cons_self ..))
        (Nat.min_le_left ..)
    · rcases List.mem_cons.mp he2 with rfl | he3
      · exact Nat.le_trans (ih (min d e) (min d e) (List.mem_cons_self ..))
          (Nat.min_le_right ..)
      · exact ih (min d f) e (List.mem_cons.mpr (Or.inr he3))

theorem sqDist_self (p : ℕ × ℕ) : sqDist p p = 0 := by
  simp [sqDist]

theorem sqDist_eq_zero_iff (p q : ℕ × ℕ) : sqDist p q = 0 ↔ p = q := by
  constructor
  · intro h
    unfold sqDist at h
    rw [Nat.add_eq_zero] at h
    obtain ⟨h1, h2⟩ := h
    rw [pow_eq_zero_iff two_ne_zero, Int.natAbs_eq_zero, sub_eq_zero, Nat.cast_inj] at h1 h2
    exact Prod.ext h1 h2
  · rintro rfl
    exact sqDist_self ..

theorem mem_coords {img : Image2D} {p : ℕ × ℕ} :
    p ∈ coords img ↔ p.1 < img.length ∧ p.2 < (img.getD p.1 []).length := by
  simp only [coords, List.mem_flatMap, List.mem_map, List.mem_range]
  constructor
  · rintro ⟨i, hi, j, hj, rfl⟩
    exact ⟨hi, hj⟩
  · rintro ⟨ha, hb⟩
    exact ⟨p.1, ha, p.2, hb, rfl⟩

theorem mem_zeroPixels {img : Image2D} {p : ℕ × ℕ} :
    p ∈ zeroPixels img ↔ p ∈ coords img ∧ imgAsUintPixel (pixelAt img p.1 p.2) = 0 := by
  rw [zeroPixels, List.mem_filter, decide_eq_true_eq]

theorem edtSq_le (img : Image2D) (p : ℕ × ℕ) :
    ∀ q ∈ zeroPixels img, edtSq img p ≤ sqDist p q := by
  intro q hq
  have hmem : sqDist p q ∈ (zeroPixels img).map (sqDist p) := List.mem_map_of_mem _ hq
  rcases hL : (zeroPixels img).map (sqDist p) with _ | ⟨d0, ds⟩
  · rw [hL] at hmem
    cases hmem
  · have he : edtSq img p = ds.foldl min d0 := by
      unfold edtSq
      rw [hL]
    rw [hL] at hmem
    rw [he]
    exact foldl_min_le d0 ds _ hmem

theorem edtSq_zero_of_background {img : Image2D} {p : ℕ × ℕ} (hp : p ∈ coords img)
    (h0 : imgAsUintPixel (pixelAt img p.1 p.2) = 0) : edtSq img p = 0 := by
  have hle := edtSq_le img p p (mem_zeroPixels.mpr ⟨hp, h0⟩)
  rw [sqDist_self] at hle
  exact Nat.le_zero.mp hle

theorem edtSq_eq_zero_iff {img : Image2D} {p : ℕ × ℕ} (hp : p ∈ coords img)
    (hz : ∃ q ∈ coords img, imgAsUintPixel (pixelAt img q.1 q.2) = 0) :
    edtSq img p = 0 ↔ imgAsUintPixel (pixelAt img p.1 p.2) = 0 := by
  constructor
  · intro h
    obtain ⟨q, hq, hq0⟩ := hz
    have hqz : q ∈ zeroPixels img := mem_zeroPixels.mpr ⟨hq, hq0⟩
    rcases hL : (zeroPixels img).map (sqDist p) with _ | ⟨d0, ds⟩
    · rw [List.map_eq_nil_iff] at hL
      rw [hL] at hqz
      cases hqz
    · have he : edtSq img p = ds.foldl min d0 := by
        unfold edtSq
        rw [hL]
      rw [he] at h
      have hmem := h ▸ foldl_min_mem d0 ds
      rw [← hL, List.mem_map] at hmem
      obtain ⟨r, hr, hr0⟩ := hmem
      have hrp : p = r := (sqDist_eq_zero_iff p r).mp hr0
      exact (mem_zeroPixels.mp (hrp ▸ hr)).2
  · exact edtSq_zero_of_background hp

theorem edt_nonneg (img : Image2D) (p : ℕ × ℕ) : 0 ≤ edt img p :=
  Real.sqrt_nonneg _

theorem edt_eq_zero_iff_sq (img : Image2D) (p : ℕ × ℕ) :
    edt img p = 0 ↔ edtSq img p = 0 := by
  rw [edt, Real.sqrt_eq_zero (Nat.cast_nonneg _), Nat.cast_eq_zero]

theorem run_lookup (x_name y_name : List Char) (iset : List (List Char × Image2D))
    (x : Image2D) (hx : iset.lookup x_name = some x) :
    run x_name y_name iset =
      some (y_name, { sq_pixels := edtArray x, parent_data := x }) := by
  simp only [run, hx]

end DistanceTransform

namespace DistanceTransform

/-- C4 is false as stated: the output can be zero at a pixel whose
original value is non-zero.  A pixel of value 1/1000000 is non-zero,
but `img_as_uint` scales by 65535 and rounds, giving 0, so the
distance-transform output at that pixel is 0. -/
theorem dt_zero_iff_fails_on_small_positive_pixel :
    pixelAt [[1/1000000]] 0 0 ≠ 0 ∧ edt [[1/1000000]] (0, 0) = 0 := by
  have h0 : imgAsUintPixel ((1 : ℚ)/1000000) = 0 := by
    rw [imgAsUintPixel, round_eq, Int.floor_eq_zero_iff]
    constructor <;> norm_num
  constructor
  · rw [show pixelAt [[1/1000000]] 0 0 = (1 : ℚ)/1000000 from rfl]
    norm_num
  · have hsq : edtSq [[1/1000000]] (0, 0) = 0 :=
      edtSq_zero_of_background (by decide) h0
    unfold edt
    rw [hsq]
    simp

/-- C4 (amended): for every input image, `run` adds under the
configured output name an image whose parent is the input and whose
data is the distance transform; the output is non-negative at every
pixel, and (when the converted image has a zero pixel at all) it is
zero at an in-bounds pixel exactly when the `img_as_uint` conversion of
the input is zero there — in particular it is zero wherever the
original input is zero, but it can also be zero at pixels whose small
non-zero value rounds to zero in the 16-bit conversion. -/
theorem dt_run_output_nonneg_and_zero_iff_converted_zero
    (x_name y_name : List Char) (iset : List (List Char × Image2D)) (x : Image2D)
    (hx : iset.lookup x_name = some x) (p : ℕ × ℕ) (hp : p ∈ coords x)
    (hz : ∃ q ∈ coords x, imgAsUintPixel (pixelAt x q.1 q.2) = 0) :
    run x_name y_name iset =
      some (y_name, { sq_pixels := edtArray x, parent_data := x }) ∧
    (∀ q : ℕ × ℕ, 0 ≤ edt x q) ∧
    (edt x p = 0 ↔ imgAsUintPixel (pixelAt x p.1 p.2) = 0) ∧
    (pixelAt x p.1 p.2 = 0 → edt x p = 0) := by
  refine ⟨run_lookup x_name y_name iset x hx, edt_nonneg x, ?_, ?_⟩
  · rw [edt_eq_zero_iff_sq]
    exact edtSq_eq_zero_iff hp hz
  · intro h0
    rw [edt_eq_zero_iff_sq]
    exact edtSq_zero_of_background hp (by rw [h0, imgAsUintPixel, mul_zero, round_zero])

theorem dt_run_output_nonneg_and_zero_iff_converted_zero_witness :
    ([(['x'], [[0]])] : List (List Char × Image2D)).lookup ['x'] = some [[0]] ∧
      (0, 0) ∈ coords ([[0]] : Image2D) ∧
      (∃ q ∈ coords ([[0]] : Image2D), imgAsUintPixel (pixelAt [[0]] q.1 q.2) = 0) ∧
      run ['x'] ['y'] [(['x'], [[0]])] =
        some (['y'], { sq_pixels := edtArray [[0]], parent_data := [[0]] }) := by
  have h0 : imgAsUintPixel (pixelAt ([[0]] : Image2D) 0 0) = 0 := by
    rw [show pixelAt ([[0]] : Image2D) 0 0 = 0 from rfl, imgAsUintPixel, mul_zero, round_zero]
  refine ⟨rfl, by decide, ⟨(0, 0), by decide, h0⟩, ?_⟩
  exact (dt_run_output_nonneg_and_zero_iff_converted_zero ['x'] ['y']
    [(['x'], [[0]])] [[0]] rfl (0, 0) (by decide) ⟨(0, 0), by decide, h0⟩).1

end DistanceTransform
